import Mathlib

/-!
Verification of the tuple/vector algebra core of the `ray_tracer` repository
(`src/tuples.rs`).

The Rust core wraps an `f64` in a newtype `Float` with epsilon-tolerant
equality and ordering, and builds a 4-component homogeneous `Tuple` on top of
it.  We shallowly embed the code here.  A Rust `f64` is modelled by the type
`F`: either an exact real number or one of the IEEE-754 special values
(+∞, −∞, NaN).  Finite arithmetic is modelled exactly over `ℝ` (rounding is
abstracted away); the propagation rules for the special values follow
IEEE 754 as implemented by Rust's `f64` operators, `abs`, `sqrt` and
`PartialOrd`.  Every `Float` and `Tuple` operation below is a direct
transcription of the corresponding Rust item in `src/tuples.rs`.
-/

namespace RayTracer

open Classical

/-- Model of a Rust `f64` value: an exact real number or an IEEE-754 special
value (positive infinity, negative infinity, NaN). -/
inductive F where
  | num (x : ℝ)
  | pinf
  | ninf
  | nan

namespace F

/-- IEEE negation of an `f64` (`std::ops::Neg` on the wrapped value). -/
def fneg : F → F
  | num x => num (-x)
  | pinf => ninf
  | ninf => pinf
  | nan => nan

/-- IEEE addition of two `f64` values (`+` on the wrapped values); finite
addition is exact, `∞ + (−∞)` is NaN, NaN propagates. -/
def fadd : F → F → F
  | nan, _ => nan
  | _, nan => nan
  | num x, num y => num (x + y)
  | num _, pinf => pinf
  | num _, ninf => ninf
  | pinf, num _ => pinf
  | ninf, num _ => ninf
  | pinf, pinf => pinf
  | ninf, ninf => ninf
  | pinf, ninf => nan
  | ninf, pinf => nan

/-- IEEE subtraction: `a - b = a + (-b)` exactly. -/
def fsub (a b : F) : F := fadd a (fneg b)

/-- IEEE multiplication of two `f64` values; `0 × ∞` is NaN, NaN propagates. -/
noncomputable def fmul : F → F → F
  | nan, _ => nan
  | _, nan => nan
  | num x, num y => num (x * y)
  | num x, pinf => if 0 < x then pinf else if x < 0 then ninf else nan
  | num x, ninf => if 0 < x then ninf else if x < 0 then pinf else nan
  | pinf, num y => if 0 < y then pinf else if y < 0 then ninf else nan
  | ninf, num y => if 0 < y then ninf else if y < 0 then pinf else nan
  | pinf, pinf => pinf
  | ninf, ninf => pinf
  | pinf, ninf => ninf
  | ninf, pinf => ninf

/-- IEEE division of two `f64` values; `x / 0` is `±∞` for `x ≠ 0` and NaN
for `x = 0`, `∞ / ∞` is NaN, NaN propagates.  (The model has a single zero,
so signs follow `+0`.) -/
noncomputable def fdiv : F → F → F
  | nan, _ => nan
  | _, nan => nan
  | num x, num y =>
      if y = 0 then (if 0 < x then pinf else if x < 0 then ninf else nan)
      else num (x / y)
  | num _, pinf => num 0
  | num _, ninf => num 0
  | pinf, num y => if y < 0 then ninf else pinf
  | ninf, num y => if y < 0 then pinf else ninf
  | pinf, pinf => nan
  | pinf, ninf => nan
  | ninf, pinf => nan
  | ninf, ninf => nan

/-- `f64::abs`: absolute value; `|±∞| = +∞`, `|NaN| = NaN`. -/
def fabs : F → F
  | num x => num |x|
  | pinf => pinf
  | ninf => pinf
  | nan => nan

/-- The strict IEEE `<` on `f64`: false whenever an operand is NaN. -/
def flt : F → F → Prop
  | nan, _ => False
  | _, nan => False
  | num x, num y => x < y
  | num _, pinf => True
  | num _, ninf => False
  | pinf, _ => False
  | ninf, num _ => True
  | ninf, pinf => True
  | ninf, ninf => False

/-- `f64::partial_cmp` from the Rust standard library: `none` whenever an
operand is NaN, otherwise the total numeric order with `−∞ < finite < +∞`. -/
noncomputable def cmpRaw : F → F → Option Ordering
  | nan, _ => none
  | _, nan => none
  | num x, num y => if x < y then some .lt else if x = y then some .eq else some .gt
  | num _, pinf => some .lt
  | num _, ninf => some .gt
  | pinf, pinf => some .eq
  | pinf, _ => some .gt
  | ninf, ninf => some .eq
  | ninf, _ => some .lt

/-- The epsilon of the source (`0.00001` in `Float::eq`), as the exact
rational it denotes. -/
noncomputable def epsilon : ℝ := 1 / 100000

/-- `Float::eq` (the `PartialEq` impl in `src/tuples.rs`):
`(self.0 - other.0).abs() < 0.00001`. -/
noncomputable def feq (a b : F) : Prop := flt (fabs (fsub a b)) (num epsilon)

/-- `Float::partial_cmp` (the `PartialOrd` impl in `src/tuples.rs`):
`if self == other { Some(Equal) } else { self.0.partial_cmp(&other.0) }`. -/
noncomputable def fcmp (a b : F) : Option Ordering :=
  if feq a b then some Ordering.eq else cmpRaw a b

/-- `Float::sqr`: `Float(self.0 * self.0)`. -/
noncomputable def sqr (a : F) : F := fmul a a

/-- `Float::sqrt`: `Float(self.0.sqrt())`; the square root of a negative
number (or of NaN) is NaN, with no guard in the source. -/
noncomputable def fsqrt : F → F
  | num x => if x < 0 then nan else num (Real.sqrt x)
  | pinf => pinf
  | ninf => nan
  | nan => nan

end F

/-- `Tuple` from `src/tuples.rs`: four `Float` components. -/
structure Tuple where
  x : F
  y : F
  z : F
  w : F

namespace Tuple

/-- Derived `PartialEq` on `Tuple`: componentwise `Float` equality. -/
noncomputable def teq (a b : Tuple) : Prop :=
  F.feq a.x b.x ∧ F.feq a.y b.y ∧ F.feq a.z b.z ∧ F.feq a.w b.w

/-- `std::ops::Add for Tuple`: componentwise `Float` addition. -/
def add (a b : Tuple) : Tuple :=
  ⟨F.fadd a.x b.x, F.fadd a.y b.y, F.fadd a.z b.z, F.fadd a.w b.w⟩

/-- `std::ops::Sub for Tuple`: componentwise `Float` subtraction. -/
def sub (a b : Tuple) : Tuple :=
  ⟨F.fsub a.x b.x, F.fsub a.y b.y, F.fsub a.z b.z, F.fsub a.w b.w⟩

/-- `std::ops::Mul<Float> for Tuple`: each component times the scalar. -/
noncomputable def mulScalar (t : Tuple) (s : F) : Tuple :=
  ⟨F.fmul t.x s, F.fmul t.y s, F.fmul t.z s, F.fmul t.w s⟩

/-- `std::ops::Neg for Tuple`: componentwise negation. -/
def neg (t : Tuple) : Tuple :=
  ⟨F.fneg t.x, F.fneg t.y, F.fneg t.z, F.fneg t.w⟩

/-- `Tuple::is_point`: `self.w == Float(1.0)`. -/
noncomputable def is_point (t : Tuple) : Prop := F.feq t.w (F.num 1)

/-- `Tuple::is_vector`: `self.w == Float(0.0)`. -/
noncomputable def is_vector (t : Tuple) : Prop := F.feq t.w (F.num 0)

/-- `Tuple::magnitude`:
`(self.x.sqr() + self.y.sqr() + self.z.sqr() + self.w.sqr()).sqrt()`. -/
noncomputable def magnitude (t : Tuple) : F :=
  F.fsqrt (F.fadd (F.fadd (F.fadd (F.sqr t.x) (F.sqr t.y)) (F.sqr t.z)) (F.sqr t.w))

/-- `Tuple::normalize`: each component divided by `self.magnitude()`, with
no zero-magnitude guard. -/
noncomputable def normalize (t : Tuple) : Tuple :=
  ⟨F.fdiv t.x t.magnitude, F.fdiv t.y t.magnitude,
   F.fdiv t.z t.magnitude, F.fdiv t.w t.magnitude⟩

/-- `Tuple::dot`:
`self.x * other.x + self.y * other.y + self.z * other.z + self.w * other.w`. -/
noncomputable def dot (a b : Tuple) : F :=
  F.fadd (F.fadd (F.fadd (F.fmul a.x b.x) (F.fmul a.y b.y)) (F.fmul a.z b.z))
    (F.fmul a.w b.w)

/-- `Tuple::cross`: the 3-D cross product on (x, y, z) with `w = Float(0.0)`. -/
noncomputable def cross (a b : Tuple) : Tuple :=
  ⟨F.fsub (F.fmul a.y b.z) (F.fmul a.z b.y),
   F.fsub (F.fmul a.z b.x) (F.fmul a.x b.z),
   F.fsub (F.fmul a.x b.y) (F.fmul a.y b.x),
   F.num 0⟩

end Tuple

/-- The `tuple!` macro: wrap four numeric literals in `Float`. -/
def tuple (x y z w : ℝ) : Tuple := ⟨F.num x, F.num y, F.num z, F.num w⟩

/-- The `point!` macro: `tuple!(x, y, z, 1.0)`. -/
def point (x y z : ℝ) : Tuple := tuple x y z 1

/-- The `vector!` macro: `tuple!(x, y, z, 0.0)`. -/
def vector (x y z : ℝ) : Tuple := tuple x y z 0

/-! ### Basic lemmas about the scalar model -/

lemma F.feq_num (a b : ℝ) : F.feq (F.num a) (F.num b) ↔ |a - b| < F.epsilon := by
  simp [F.feq, F.fsub, F.fneg, F.fadd, F.fabs, F.flt, sub_eq_add_neg]

lemma F.feq_nan_left (b : F) : ¬ F.feq F.nan b := by
  cases b <;> simp [F.feq, F.fsub, F.fneg, F.fadd, F.fabs, F.flt]

lemma F.feq_nan_right (a : F) : ¬ F.feq a F.nan := by
  cases a <;> simp [F.feq, F.fsub, F.fneg, F.fadd, F.fabs, F.flt]

lemma F.cmpRaw_total (a b : F) (ha : a ≠ F.nan) (hb : b ≠ F.nan) :
    ∃ o : Ordering, F.cmpRaw a b = some o := by
  cases a <;> cases b <;> first
    | exact absurd rfl ha
    | exact absurd rfl hb
    | (simp only [F.cmpRaw]; first
        | (split_ifs <;> exact ⟨_, rfl⟩)
        | exact ⟨_, rfl⟩)

lemma F.fcmp_nan (a b : F) (h : a = F.nan ∨ b = F.nan) : F.fcmp a b = none := by
  have hfe : ¬ F.feq a b := by
    rcases h with h | h
    · rw [h]; exact F.feq_nan_left b
    · rw [h]; exact F.feq_nan_right a
  simp only [F.fcmp]
  rw [if_neg hfe]
  rcases h with h | h
  · subst h; cases b <;> rfl
  · subst h; cases a <;> rfl

lemma F.epsilon_pos : 0 < F.epsilon := by rw [F.epsilon]; norm_num

lemma F.fadd_num (a b : ℝ) : F.fadd (F.num a) (F.num b) = F.num (a + b) := rfl

lemma F.fneg_num (a : ℝ) : F.fneg (F.num a) = F.num (-a) := rfl

lemma F.fsub_num (a b : ℝ) : F.fsub (F.num a) (F.num b) = F.num (a - b) := by
  rw [F.fsub, F.fneg_num, F.fadd_num, sub_eq_add_neg]

lemma F.fmul_num (a b : ℝ) : F.fmul (F.num a) (F.num b) = F.num (a * b) := rfl

lemma F.fdiv_num (a m : ℝ) (hm : m ≠ 0) :
    F.fdiv (F.num a) (F.num m) = F.num (a / m) := by
  simp only [F.fdiv]
  rw [if_neg hm]

lemma F.feq_num_of_eq {a b : ℝ} (h : a = b) : F.feq (F.num a) (F.num b) := by
  rw [F.feq_num, h, sub_self, abs_zero]
  exact F.epsilon_pos

lemma Tuple.magnitude_tuple (x y z w : ℝ) :
    (tuple x y z w).magnitude = F.num (Real.sqrt (x^2 + y^2 + z^2 + w^2)) := by
  have hsum : x*x + y*y + z*z + w*w = x^2 + y^2 + z^2 + w^2 := by ring
  have hnn : (0:ℝ) ≤ x*x + y*y + z*z + w*w := by
    nlinarith [mul_self_nonneg x, mul_self_nonneg y, mul_self_nonneg z,
      mul_self_nonneg w]
  simp only [tuple, Tuple.magnitude, F.sqr, F.fmul_num, F.fadd_num, F.fsqrt]
  rw [if_neg (not_lt.mpr hnn), hsum]

lemma Tuple.normalize_tuple (x y z w : ℝ)
    (h : Real.sqrt (x^2 + y^2 + z^2 + w^2) ≠ 0) :
    (tuple x y z w).normalize =
      tuple (x / Real.sqrt (x^2 + y^2 + z^2 + w^2))
        (y / Real.sqrt (x^2 + y^2 + z^2 + w^2))
        (z / Real.sqrt (x^2 + y^2 + z^2 + w^2))
        (w / Real.sqrt (x^2 + y^2 + z^2 + w^2)) := by
  simp only [Tuple.normalize, Tuple.magnitude_tuple]
  simp only [tuple, F.fdiv_num _ _ h]

lemma Tuple.cross_tuple (x1 y1 z1 w1 x2 y2 z2 w2 : ℝ) :
    (tuple x1 y1 z1 w1).cross (tuple x2 y2 z2 w2) =
      tuple (y1 * z2 - z1 * y2) (z1 * x2 - x1 * z2) (x1 * y2 - y1 * x2) 0 := by
  simp only [tuple, Tuple.cross, F.fmul_num, F.fsub_num]

lemma sqrt_fourteen_gt : (3.741657 : ℝ) < Real.sqrt 14 := by
  rw [show (3.741657 : ℝ) < Real.sqrt 14 ↔ (3.741657 : ℝ)^2 < 14 from
    Real.lt_sqrt (by norm_num)]
  norm_num

lemma sqrt_fourteen_lt : Real.sqrt 14 < (3.741658 : ℝ) := by
  rw [Real.sqrt_lt' (by norm_num : (0:ℝ) < 3.741658)]
  norm_num

/-! ### Claim theorems -/

/-- C1: `Float` equality is exactly epsilon-closeness of the wrapped values:
`Float(a) == Float(b)` holds iff `|a - b| < 1e-5` (so it is true when
`|a - b| < 1e-5` and false when `|a - b| ≥ 1e-5`). -/
theorem float_eq_iff_abs_sub_lt_epsilon (a b : ℝ) :
    F.feq (F.num a) (F.num b) ↔ |a - b| < F.epsilon :=
  F.feq_num a b

/-- C2: `Float::partial_cmp` on wrapped values returns `Equal` iff the two
scalars are epsilon-equal, and otherwise falls back to the natural numeric
ordering of the wrapped values; epsilon-equal scalars never compare as
`Less` or `Greater`. -/
theorem float_cmp_equal_iff_epsilon_else_numeric (a b : ℝ) :
    (F.fcmp (F.num a) (F.num b) = some Ordering.eq ↔ |a - b| < F.epsilon) ∧
    (F.epsilon ≤ |a - b| → a < b →
      F.fcmp (F.num a) (F.num b) = some Ordering.lt) ∧
    (F.epsilon ≤ |a - b| → b < a →
      F.fcmp (F.num a) (F.num b) = some Ordering.gt) := by
  have hiff := F.feq_num a b
  refine ⟨⟨?_, ?_⟩, ?_, ?_⟩
  · intro h
    by_contra hlt
    have hfe : ¬ F.feq (F.num a) (F.num b) := fun hf => hlt (hiff.mp hf)
    simp only [F.fcmp] at h
    rw [if_neg hfe] at h
    have hab : a ≠ b := by
      intro he
      apply hlt
      rw [he, sub_self, abs_zero, F.epsilon]
      norm_num
    simp only [F.cmpRaw] at h
    split_ifs at h <;> simp_all
  · intro h
    simp only [F.fcmp]
    rw [if_pos (hiff.mpr h)]
  · intro hge hlt
    have hfe : ¬ F.feq (F.num a) (F.num b) := fun hf =>
      absurd (hiff.mp hf) (not_lt.mpr hge)
    simp only [F.fcmp]
    rw [if_neg hfe]
    simp only [F.cmpRaw]
    rw [if_pos hlt]
  · intro hge hgt
    have hfe : ¬ F.feq (F.num a) (F.num b) := fun hf =>
      absurd (hiff.mp hf) (not_lt.mpr hge)
    simp only [F.fcmp]
    rw [if_neg hfe]
    simp only [F.cmpRaw]
    rw [if_neg (asymm hgt), if_neg (ne_of_gt hgt)]

/-- C2 witness: at the concrete scalars 0 and 1, the hypotheses
`ε ≤ |0 - 1|` and `0 < 1` hold and the comparison returns `Less`. -/
theorem float_cmp_equal_iff_epsilon_else_numeric_witness :
    F.epsilon ≤ |(0 : ℝ) - 1| ∧
    F.fcmp (F.num 0) (F.num 1) = some Ordering.lt := by
  have h : F.epsilon ≤ |(0 : ℝ) - 1| := by rw [F.epsilon]; norm_num
  exact ⟨h, (float_cmp_equal_iff_epsilon_else_numeric 0 1).2.1 h (by norm_num)⟩

/-- C3 counterexample: comparing `Float(NaN)` with `Float(NaN)` does not
produce any of `Less`, `Equal`, `Greater` — `Float::partial_cmp` returns
`None`, because the operands are not epsilon-equal and `f64::partial_cmp`
is undefined on NaN. -/
theorem float_cmp_nan_is_none : F.fcmp F.nan F.nan = none :=
  F.fcmp_nan F.nan F.nan (Or.inl rfl)

/-- C3 (amended): every `Float` operation still only produces values (no
panic), and `compare` returns one of `Less`, `Equal`, `Greater` whenever
neither input is NaN; when either input is NaN the comparison instead
returns no ordering (`None`). -/
theorem float_cmp_total_unless_nan (a b : F) :
    (a ≠ F.nan → b ≠ F.nan → ∃ o : Ordering, F.fcmp a b = some o) ∧
    ((a = F.nan ∨ b = F.nan) → F.fcmp a b = none) := by
  constructor
  · intro ha hb
    by_cases hfe : F.feq a b
    · exact ⟨Ordering.eq, by simp only [F.fcmp]; rw [if_pos hfe]⟩
    · obtain ⟨o, ho⟩ := F.cmpRaw_total a b ha hb
      exact ⟨o, by simp only [F.fcmp]; rw [if_neg hfe]; exact ho⟩
  · exact F.fcmp_nan a b

/-- C3 (amended) witness: at the concrete non-NaN scalars 1 and 2 the
comparison produces an ordering. -/
theorem float_cmp_total_unless_nan_witness :
    F.num (1 : ℝ) ≠ F.nan ∧ F.num (2 : ℝ) ≠ F.nan ∧
    ∃ o : Ordering, F.fcmp (F.num 1) (F.num 2) = some o := by
  have h1 : F.num (1 : ℝ) ≠ F.nan := by simp
  have h2 : F.num (2 : ℝ) ≠ F.nan := by simp
  exact ⟨h1, h2, (float_cmp_total_unless_nan (F.num 1) (F.num 2)).1 h1 h2⟩

/-- C10: `Float` equality is not reflexive at NaN — `Float(NaN) ==
Float(NaN)` is false — and consequently a tuple with a NaN component is
never equal to itself under the componentwise tuple equality. -/
theorem float_nan_eq_not_reflexive :
    (¬ F.feq F.nan F.nan) ∧
    ∀ t : Tuple,
      (t.x = F.nan ∨ t.y = F.nan ∨ t.z = F.nan ∨ t.w = F.nan) →
      ¬ Tuple.teq t t := by
  refine ⟨F.feq_nan_left F.nan, ?_⟩
  intro t h ht
  obtain ⟨hx, hy, hz, hw⟩ := ht
  rcases h with h | h | h | h
  · rw [h] at hx; exact F.feq_nan_left F.nan hx
  · rw [h] at hy; exact F.feq_nan_left F.nan hy
  · rw [h] at hz; exact F.feq_nan_left F.nan hz
  · rw [h] at hw; exact F.feq_nan_left F.nan hw

/-- C4: `magnitude` is the Euclidean norm over all four components —
`sqrt(x² + y² + z² + w²)` — including `w`, not only x, y, z. -/
theorem magnitude_is_four_component_norm (x y z w : ℝ) :
    (tuple x y z w).magnitude = F.num (Real.sqrt (x^2 + y^2 + z^2 + w^2)) :=
  Tuple.magnitude_tuple x y z w

/-- C9: `magnitude(t)` is exactly `sqrt(dot(t, t))` — both build
`x*x + y*y + z*z + w*w` with the same operations in the same order, so the
two expressions are definitionally the same function of `t` and agree on
every tuple, special values included. -/
theorem magnitude_eq_sqrt_dot_self (t : Tuple) :
    t.magnitude = F.fsqrt (t.dot t) := rfl

/-- C5: `normalize` divides every component by `magnitude(t)` with no
zero-magnitude guard; when the magnitude is zero every component of the
result is the IEEE special value produced by `Float` division (`0/0` =
NaN), and no error is raised. -/
theorem normalize_divides_by_magnitude_no_guard (x y z w : ℝ) :
    (tuple x y z w).normalize =
      Tuple.mk (F.fdiv (F.num x) ((tuple x y z w).magnitude))
        (F.fdiv (F.num y) ((tuple x y z w).magnitude))
        (F.fdiv (F.num z) ((tuple x y z w).magnitude))
        (F.fdiv (F.num w) ((tuple x y z w).magnitude)) ∧
    ((tuple x y z w).magnitude = F.num 0 →
      (tuple x y z w).normalize = Tuple.mk F.nan F.nan F.nan F.nan) := by
  constructor
  · rfl
  · intro h
    rw [Tuple.magnitude_tuple] at h
    have hs : Real.sqrt (x^2 + y^2 + z^2 + w^2) = 0 := by injection h
    have hnn : (0:ℝ) ≤ x^2 + y^2 + z^2 + w^2 := by positivity
    have hS : x^2 + y^2 + z^2 + w^2 = 0 := (Real.sqrt_eq_zero hnn).mp hs
    have hx : x = 0 := by
      have h2 : x^2 = 0 := le_antisymm
        (by linarith [sq_nonneg y, sq_nonneg z, sq_nonneg w]) (sq_nonneg x)
      exact sq_eq_zero_iff.mp h2
    have hy : y = 0 := by
      have h2 : y^2 = 0 := le_antisymm
        (by linarith [sq_nonneg x, sq_nonneg z, sq_nonneg w]) (sq_nonneg y)
      exact sq_eq_zero_iff.mp h2
    have hz : z = 0 := by
      have h2 : z^2 = 0 := le_antisymm
        (by linarith [sq_nonneg x, sq_nonneg y, sq_nonneg w]) (sq_nonneg z)
      exact sq_eq_zero_iff.mp h2
    have hw : w = 0 := by
      have h2 : w^2 = 0 := le_antisymm
        (by linarith [sq_nonneg x, sq_nonneg y, sq_nonneg z]) (sq_nonneg w)
      exact sq_eq_zero_iff.mp h2
    subst hx hy hz hw
    have hm : (tuple (0:ℝ) 0 0 0).magnitude = F.num 0 := by
      rw [Tuple.magnitude_tuple]
      norm_num [Real.sqrt_zero]
    have hmm : (Tuple.mk (F.num (0:ℝ)) (F.num 0) (F.num 0) (F.num 0)).magnitude
        = F.num 0 := hm
    simp only [Tuple.normalize, tuple, hmm]
    simp [F.fdiv]

/-- C5 witness: the zero vector has zero magnitude and its normalization is
the all-NaN tuple, with no error raised. -/
theorem normalize_divides_by_magnitude_no_guard_witness :
    (tuple 0 0 0 0).magnitude = F.num 0 ∧
    (tuple 0 0 0 0).normalize = Tuple.mk F.nan F.nan F.nan F.nan := by
  have hm : (tuple (0:ℝ) 0 0 0).magnitude = F.num 0 := by
    rw [Tuple.magnitude_tuple]
    norm_num [Real.sqrt_zero]
  exact ⟨hm, (normalize_divides_by_magnitude_no_guard 0 0 0 0).2 hm⟩

/-- C6: the w component of any cross product is `Float(0.0)` — so the
result is always classified as a vector, whatever the inputs' w — and on
wrapped values the x, y, z components are the standard 3-D cross product
of the (x, y, z) parts. -/
theorem cross_w_always_zero_vector :
    (∀ a b : Tuple, (a.cross b).w = F.num 0 ∧ (a.cross b).is_vector) ∧
    (∀ x1 y1 z1 w1 x2 y2 z2 w2 : ℝ,
      (tuple x1 y1 z1 w1).cross (tuple x2 y2 z2 w2) =
        tuple (y1 * z2 - z1 * y2) (z1 * x2 - x1 * z2) (x1 * y2 - y1 * x2) 0) := by
  constructor
  · intro a b
    exact ⟨rfl, F.feq_num_of_eq rfl⟩
  · exact Tuple.cross_tuple

/-- C7 counterexample: for the tuple T = (NaN, 0, 0, 0), `T.cross(T)` is
not equal to `-(T.cross(T))`: the NaN input makes the y component of both
sides NaN, and `Float` equality is false at NaN; so anti-commutativity
fails for some pairs of tuples. -/
theorem cross_anticommutative_counterexample :
    ¬ Tuple.teq
      ((Tuple.mk F.nan (F.num 0) (F.num 0) (F.num 0)).cross
        (Tuple.mk F.nan (F.num 0) (F.num 0) (F.num 0)))
      (Tuple.neg ((Tuple.mk F.nan (F.num 0) (F.num 0) (F.num 0)).cross
        (Tuple.mk F.nan (F.num 0) (F.num 0) (F.num 0)))) := by
  intro h
  have hy := h.2.1
  have e1 : ((Tuple.mk F.nan (F.num 0) (F.num 0) (F.num 0)).cross
      (Tuple.mk F.nan (F.num 0) (F.num 0) (F.num 0))).y = F.nan := rfl
  have e2 : (Tuple.neg ((Tuple.mk F.nan (F.num 0) (F.num 0) (F.num 0)).cross
      (Tuple.mk F.nan (F.num 0) (F.num 0) (F.num 0)))).y = F.nan := rfl
  rw [e1, e2] at hy
  exact F.feq_nan_left F.nan hy

/-- C7 (amended): the cross product is anti-commutative for every two
tuples whose components are finite wrapped values —
`a.cross(b) == -(b.cross(a))` — and the two concrete examples hold:
`vector(1,2,3).cross(vector(2,3,4)) == vector(-1,2,-1)` and
`vector(2,3,4).cross(vector(1,2,3)) == vector(1,-2,1)`. -/
theorem cross_anticommutative_on_finite :
    (∀ x1 y1 z1 w1 x2 y2 z2 w2 : ℝ,
      Tuple.teq ((tuple x1 y1 z1 w1).cross (tuple x2 y2 z2 w2))
        (Tuple.neg ((tuple x2 y2 z2 w2).cross (tuple x1 y1 z1 w1)))) ∧
    Tuple.teq ((vector 1 2 3).cross (vector 2 3 4)) (vector (-1) 2 (-1)) ∧
    Tuple.teq ((vector 2 3 4).cross (vector 1 2 3)) (vector 1 (-2) 1) := by
  refine ⟨?_, ?_, ?_⟩
  · intro x1 y1 z1 w1 x2 y2 z2 w2
    rw [Tuple.cross_tuple, Tuple.cross_tuple]
    simp only [tuple, Tuple.neg, F.fneg_num, Tuple.teq]
    refine ⟨?_, ?_, ?_, ?_⟩ <;> exact F.feq_num_of_eq (by ring)
  · show Tuple.teq ((tuple (1:ℝ) 2 3 0).cross (tuple (2:ℝ) 3 4 0))
      (tuple (-1 : ℝ) 2 (-1) 0)
    rw [Tuple.cross_tuple]
    refine ⟨?_, ?_, ?_, ?_⟩ <;> exact F.feq_num_of_eq (by norm_num)
  · show Tuple.teq ((tuple (2:ℝ) 3 4 0).cross (tuple (1:ℝ) 2 3 0))
      (tuple (1 : ℝ) (-2) 1 0)
    rw [Tuple.cross_tuple]
    refine ⟨?_, ?_, ?_, ?_⟩ <;> exact F.feq_num_of_eq (by norm_num)

/-- C8 counterexample: the tuple (NaN, 0, 0, 0) has NaN magnitude — which
is nonzero, both exactly and under the code's epsilon equality — yet the
magnitude of its normalization is NaN, not epsilon-equal to `Float(1.0)`;
so the unit-magnitude property fails for some tuple of nonzero magnitude. -/
theorem normalize_unit_magnitude_counterexample :
    (Tuple.mk F.nan (F.num 0) (F.num 0) (F.num 0)).magnitude ≠ F.num 0 ∧
    ¬ F.feq ((Tuple.mk F.nan (F.num 0) (F.num 0) (F.num 0)).magnitude)
      (F.num 0) ∧
    ¬ F.feq
      ((Tuple.mk F.nan (F.num 0) (F.num 0) (F.num 0)).normalize.magnitude)
      (F.num 1) := by
  have hm : (Tuple.mk F.nan (F.num 0) (F.num 0) (F.num 0)).magnitude
      = F.nan := rfl
  have hn : (Tuple.mk F.nan (F.num 0) (F.num 0) (F.num 0)).normalize.magnitude
      = F.nan := rfl
  refine ⟨?_, ?_, ?_⟩
  · rw [hm]; exact fun h => F.noConfusion h
  · rw [hm]; exact F.feq_nan_left (F.num 0)
  · rw [hn]; exact F.feq_nan_left (F.num 1)

/-- C8 (amended): for every tuple of finite wrapped components whose
magnitude is nonzero, the magnitude of `normalize(t)` is epsilon-equal to
`Float(1.0)`; and `vector(4,0,0).normalize() == vector(1,0,0)` and
`vector(1,2,3).normalize() == vector(0.26726, 0.53452, 0.80178)`. -/
theorem normalize_unit_magnitude_on_finite :
    (∀ x y z w : ℝ, Real.sqrt (x^2 + y^2 + z^2 + w^2) ≠ 0 →
      F.feq ((tuple x y z w).normalize.magnitude) (F.num 1)) ∧
    Tuple.teq ((vector 4 0 0).normalize) (vector 1 0 0) ∧
    Tuple.teq ((vector 1 2 3).normalize) (vector 0.26726 0.53452 0.80178) := by
  refine ⟨?_, ?_, ?_⟩
  · intro x y z w hm
    have hnn : (0:ℝ) ≤ x^2 + y^2 + z^2 + w^2 := by positivity
    have hmsq : Real.sqrt (x^2 + y^2 + z^2 + w^2) ^ 2 = x^2 + y^2 + z^2 + w^2 :=
      Real.sq_sqrt hnn
    have hSpos : (0:ℝ) < x^2 + y^2 + z^2 + w^2 := by
      rcases lt_or_eq_of_le hnn with h | h
      · exact h
      · exact absurd (by rw [← h]; exact Real.sqrt_zero) hm
    rw [Tuple.normalize_tuple x y z w hm, Tuple.magnitude_tuple]
    have hone : (x / Real.sqrt (x^2 + y^2 + z^2 + w^2))^2 +
        (y / Real.sqrt (x^2 + y^2 + z^2 + w^2))^2 +
        (z / Real.sqrt (x^2 + y^2 + z^2 + w^2))^2 +
        (w / Real.sqrt (x^2 + y^2 + z^2 + w^2))^2 = 1 := by
      have hexp : (x / Real.sqrt (x^2 + y^2 + z^2 + w^2))^2 +
          (y / Real.sqrt (x^2 + y^2 + z^2 + w^2))^2 +
          (z / Real.sqrt (x^2 + y^2 + z^2 + w^2))^2 +
          (w / Real.sqrt (x^2 + y^2 + z^2 + w^2))^2 =
          (x^2 + y^2 + z^2 + w^2) / Real.sqrt (x^2 + y^2 + z^2 + w^2) ^ 2 := by
        ring
      rw [hexp, hmsq]
      exact div_self (ne_of_gt hSpos)
    rw [hone, Real.sqrt_one]
    exact F.feq_num_of_eq rfl
  · have hs : Real.sqrt ((4:ℝ)^2 + 0^2 + 0^2 + 0^2) = 4 := by
      rw [show (4:ℝ)^2 + 0^2 + 0^2 + 0^2 = 16 by norm_num,
        show (16:ℝ) = 4^2 by norm_num, Real.sqrt_sq (by norm_num : (0:ℝ) ≤ 4)]
    have hm : Real.sqrt ((4:ℝ)^2 + 0^2 + 0^2 + 0^2) ≠ 0 := by
      rw [hs]; norm_num
    show Tuple.teq ((tuple (4:ℝ) 0 0 0).normalize) (tuple (1:ℝ) 0 0 0)
    rw [Tuple.normalize_tuple 4 0 0 0 hm, hs]
    refine ⟨?_, ?_, ?_, ?_⟩ <;> exact F.feq_num_of_eq (by norm_num)
  · have e14 : (1:ℝ)^2 + 2^2 + 3^2 + 0^2 = 14 := by norm_num
    have hgt := sqrt_fourteen_gt
    have hlt := sqrt_fourteen_lt
    have hpos : (0:ℝ) < Real.sqrt 14 := lt_trans (by norm_num) hgt
    have hm : Real.sqrt ((1:ℝ)^2 + 2^2 + 3^2 + 0^2) ≠ 0 := by
      rw [e14]; exact ne_of_gt hpos
    show Tuple.teq ((tuple (1:ℝ) 2 3 0).normalize)
      (tuple (0.26726:ℝ) 0.53452 0.80178 0)
    rw [Tuple.normalize_tuple 1 2 3 0 hm, e14]
    simp only [tuple, Tuple.teq]
    refine ⟨?_, ?_, ?_, ?_⟩
    · rw [F.feq_num, F.epsilon, abs_sub_lt_iff]
      constructor
      · rw [sub_lt_iff_lt_add, div_lt_iff₀ hpos]
        linarith
      · rw [sub_lt_comm, lt_div_iff₀ hpos]
        linarith
    · rw [F.feq_num, F.epsilon, abs_sub_lt_iff]
      constructor
      · rw [sub_lt_iff_lt_add, div_lt_iff₀ hpos]
        linarith
      · rw [sub_lt_comm, lt_div_iff₀ hpos]
        linarith
    · rw [F.feq_num, F.epsilon, abs_sub_lt_iff]
      constructor
      · rw [sub_lt_iff_lt_add, div_lt_iff₀ hpos]
        linarith
      · rw [sub_lt_comm, lt_div_iff₀ hpos]
        linarith
    · exact F.feq_num_of_eq (zero_div _)

/-- C8 (amended) witness: at the concrete tuple (4, 0, 0, 0) the nonzero
magnitude hypothesis holds and the normalized magnitude is epsilon-equal
to `Float(1.0)`. -/
theorem normalize_unit_magnitude_on_finite_witness :
    Real.sqrt ((4:ℝ)^2 + 0^2 + 0^2 + 0^2) ≠ 0 ∧
    F.feq ((tuple (4:ℝ) 0 0 0).normalize.magnitude) (F.num 1) := by
  have hs : Real.sqrt ((4:ℝ)^2 + 0^2 + 0^2 + 0^2) = 4 := by
    rw [show (4:ℝ)^2 + 0^2 + 0^2 + 0^2 = 16 by norm_num,
      show (16:ℝ) = 4^2 by norm_num, Real.sqrt_sq (by norm_num : (0:ℝ) ≤ 4)]
  have hm : Real.sqrt ((4:ℝ)^2 + 0^2 + 0^2 + 0^2) ≠ 0 := by
    rw [hs]; norm_num
  exact ⟨hm, normalize_unit_magnitude_on_finite.1 4 0 0 0 hm⟩

/-- C10 witness: the concrete tuple `(NaN, 0, 0, 0)` has a NaN component
and is not equal to itself. -/
theorem float_nan_eq_not_reflexive_witness :
    (Tuple.mk F.nan (F.num 0) (F.num 0) (F.num 0)).x = F.nan ∧
    ¬ Tuple.teq (Tuple.mk F.nan (F.num 0) (F.num 0) (F.num 0))
      (Tuple.mk F.nan (F.num 0) (F.num 0) (F.num 0)) :=
  ⟨rfl, float_nan_eq_not_reflexive.2 _ (Or.inl rfl)⟩

end RayTracer
